import Mathlib

/-!
Verification development for the checkpoint-management tool in run/status.py.

Modelling conventions (shallow embedding):

* The filesystem is an explicit structure FS.  A checkpoint file
  seed_folder/checkpoint{e}.pt is identified by its epoch number e, so lists of
  checkpoint names or paths in the source become lists of epoch numbers here
  (the string forms checkpoint{e}.pt and seed_folder/checkpoint{e}.pt are in
  bijection with epochs; where the source sorts full path strings we sort with
  the corresponding string order on the variable part of the path, see
  ckptPathLe below).
* A per-epoch results file epoch_tests/dec-checkpoint{e}.{metric} is modelled
  by FS.res : Nat -> Option (List String): none when the file is absent,
  otherwise the list of its lines.
* Python floats are modelled as rationals; 100*float(x) becomes 100 * q in the
  rationals.
* Python exceptions are modelled with Except String; a raised exception is an
  Except.error value carrying the exception name or message.
* The stable ascending Python sorted(...) is modelled by the stable insertion
  sort List.insertionSort from Mathlib.
-/

deriving instance DecidableEq for Except

unseal Rat.mul Rat.add Rat.inv

/-- Decimal value of a list of digit characters, as Python int parsing would
read it; the empty list contributes 0 (used only for the fractional and
integer halves of a float literal, matching float("1.") and float(".5")).
Strings are handled through their underlying character lists throughout, so
that every definition is structural recursion the kernel can evaluate. -/
def natOfDigits (s : List Char) : Nat :=
  s.foldl (fun a c => a * 10 + (c.toNat - 48)) 0

/-- Splitting of a character list at every occurrence of a separator, exactly
as the Python str.split method with a one-character separator. -/
def splitOnChar (sep : Char) : List Char → List (List Char)
  | [] => [[]]
  | c :: cs =>
    match splitOnChar sep cs with
    | [] => [[]]
    | h :: t => if c = sep then [] :: h :: t else (c :: h) :: t

/-- Semantics of Python float(x) on a capture of the regex group [0-9\.]+ :
at most one dot is allowed and at least one digit must be present; the result
is the usual decimal value, as a rational.  Returns none exactly when Python
float() raises ValueError on such a string. -/
def pyFloat (s : List Char) : Option ℚ :=
  match splitOnChar '.' s with
  | [i] => if i.isEmpty then none else some (natOfDigits i)
  | [i, f] =>
      if i.isEmpty ∧ f.isEmpty then none
      else some ((natOfDigits i : ℚ) + (natOfDigits f : ℚ) / (10 : ℚ) ^ f.length)
  | _ => none

/-- Matching of one line against the anchored regex smatch_results_re, namely
r-caret F-score: ([0-9\.]+).  Returns the captured group of the first (greedy,
maximal) run of digits and dots after the literal prefix, or none when the
line does not match. -/
def smatchMatch (line : String) : Option (List Char) :=
  if List.isPrefixOf "F-score: ".data line.data then
    let cap := (line.data.drop 9).takeWhile (fun c => c.isDigit || decide (c = '.'))
    if cap.isEmpty then none else some cap
  else none

/-- Containment of a pattern as a contiguous substring, the Python in operator
on strings (the pattern used here is always nonempty). -/
def hasSubstr (pat : List Char) : List Char → Bool
  | [] => pat.isEmpty
  | c :: cs => List.isPrefixOf pat (c :: cs) || hasSubstr pat cs

/-- Test for the Python membership check of the substring smatch inside the
score name, guarding the choice of regex in get_score_from_log. -/
def supportsSmatch (score_name : String) : Bool :=
  hasSubstr "smatch".data score_name.data

/-- Embedding of get_score_from_log (run/status.py, lines 268-284).  The file
argument is none when the file at file_path is absent, in which case the
Python open() call raises FileNotFoundError.  On the first line matching the
smatch regex the captured group is parsed with float() and scaled by 100; if
no line matches, the initial value [None] is returned. -/
def get_score_from_log (file : Option (List String)) (score_name : String) :
    Except String (List (Option ℚ)) :=
  if supportsSmatch score_name then
    match file with
    | none => Except.error "FileNotFoundError"
    | some lines =>
      match lines.findSome? smatchMatch with
      | none => Except.ok [none]
      | some cap =>
        match pyFloat cap with
        | none => Except.error "ValueError"
        | some q => Except.ok [some (100 * q)]
  else Except.error ("Unknown score type " ++ score_name)

/-- Filesystem state visible to the tool, for one seed folder.
ckpt lists the epochs e for which seed_folder/checkpoint{e}.pt exists;
res gives the lines of epoch_tests/dec-checkpoint{e}.{metric} (none if that
file is absent); resultEpochs lists the epochs extracted by the glob and
regex scan of read_results over epoch_tests/*.{metric}, whose regex also
accepts dev-checkpoint file names, hence the separate field. -/
structure FS where
  ckpt : List Nat
  res : Nat → Option (List String)
  resultEpochs : List Nat

/-- Parsed score of the results file of an epoch: some q when the file exists
and get_score_from_log returns the single successfully parsed score q, none
when the file is absent, no line matches, or parsing raises. -/
def scoreOf (fs : FS) (metric : String) (e : Nat) : Option ℚ :=
  match fs.res e with
  | none => none
  | some lines =>
    match get_score_from_log (some lines) metric with
    | Except.ok (some q :: _) => some q
    | _ => none

/-- Python slice xs[-n:] on lists (for n = 0 it is the whole list). -/
def pySliceLast (l : List α) (n : Nat) : List α :=
  if n = 0 then l else l.drop (l.length - n)

/-- Python slice xs[:-n] on lists (for n = 0 it is the empty list). -/
def pyDropLast (l : List α) (n : Nat) : List α :=
  if n = 0 then [] else l.take (l.length - n)

/-- Comparison used by sorted(scores, key=lambda x: x[0]): order score-epoch
pairs by the score component only. -/
def scoreKeyLe (a b : ℚ × Nat) : Prop := a.1 ≤ b.1

instance : DecidableRel scoreKeyLe :=
  fun a b => inferInstanceAs (Decidable (a.1 ≤ b.1))

instance : IsTotal (ℚ × Nat) scoreKeyLe := ⟨fun a b => le_total a.1 b.1⟩

instance : IsTrans (ℚ × Nat) scoreKeyLe := ⟨fun _ _ _ h1 h2 => le_trans h1 h2⟩

/-- Lexicographic comparison of character lists, as Python string comparison
performs on the parts of two paths after their common prefix. -/
def charListLe : List Char → List Char → Bool
  | [], _ => true
  | _ :: _, [] => false
  | a :: as, b :: bs => if a = b then charListLe as bs else decide (a < b)

/-- Variable part of the path seed_folder/checkpoint{n}.pt, namely the decimal
digits of n followed by the extension .pt; the rest of the path is the same
for every n, so Python string comparison of two such paths reduces to
comparing these character lists. -/
def ckptStr (n : Nat) : List Char :=
  Nat.toDigits 10 n ++ ['.', 'p', 't']

/-- String order on checkpoint paths used by sorted(...) over rest paths. -/
def ckptPathLe (a b : Nat) : Prop :=
  charListLe (ckptStr a) (ckptStr b) = true

instance : DecidableRel ckptPathLe :=
  fun a b => inferInstanceAs (Decidable (charListLe (ckptStr a) (ckptStr b) = true))

/-- Mutable loop state of the epoch loop of get_best_checkpoints: the lists
scores, missing_epochs and rest_checkpoints being appended to. -/
structure LoopState where
  scores : List (ℚ × Nat)
  missing : List Nat
  rest : List Nat
deriving DecidableEq

/-- Tail of one iteration of the epoch loop of get_best_checkpoints, from the
isfile(results_file) test onward; rest' is the value of rest_checkpoints after
the possible append at the top of the iteration. -/
def gbcResultsCheck (fs : FS) (metric : String) (st : LoopState)
    (rest' : List Nat) (epoch : Nat) : Except String LoopState :=
  match fs.res epoch with
  | none =>
      Except.ok ⟨st.scores, st.missing ++ [epoch], rest'⟩
  | some lines =>
      match get_score_from_log (some lines) metric with
      | Except.error err => Except.error err
      | Except.ok score =>
        if score = [none] then Except.ok ⟨st.scores, st.missing, rest'⟩
        else
          match score with
          | some q :: _ => Except.ok ⟨st.scores ++ [(q, epoch)], st.missing, rest'⟩
          | _ => Except.error "TypeError"

/-- One iteration of the epoch loop of get_best_checkpoints (lines 296-315).
When the epoch is outside target_epochs, an existing checkpoint is recorded in
rest_checkpoints and control falls through to the results check, while a
missing checkpoint makes the loop continue. -/
def gbcBody (fs : FS) (target : List Nat) (metric : String) (st : LoopState)
    (epoch : Nat) : Except String LoopState :=
  if epoch ∈ target then
    gbcResultsCheck fs metric st st.rest epoch
  else if epoch ∈ fs.ckpt then
    gbcResultsCheck fs metric st (st.rest ++ [epoch]) epoch
  else
    Except.ok st

/-- The epoch loop of get_best_checkpoints, over a given list of epochs. -/
def gbcLoop (fs : FS) (target : List Nat) (metric : String) :
    List Nat → LoopState → Except String LoopState
  | [], st => Except.ok st
  | e :: es, st =>
    match gbcBody fs target metric st e with
    | Except.error err => Except.error err
    | Except.ok st' => gbcLoop fs target metric es st'

/-- Return value of get_best_checkpoints.  best_n_checkpoints holds the epochs
of the relative names checkpoint{n}.pt, rest_checkpoints the epochs of the
full paths seed_folder/checkpoint{n}.pt. -/
structure GbcOut where
  best_n_checkpoints : List Nat
  best_scores : List ℚ
  rest_checkpoints : List Nat
  missing_epochs : List Nat
  sorted_scores : List (ℚ × Nat)
deriving DecidableEq

/-- Embedding of get_best_checkpoints (run/status.py, lines 287-336).  The
epoch loop runs over range(MAX_EPOCH); scores are sorted ascending by score
with the stable sort; the slice [-n_best:] is kept as best and [:-n_best] is
the scored remainder; rest_checkpoints collects existing checkpoints outside
target_epochs plus the scored remainder (sorted as path strings), except that
with no scored epoch at all the last collected rest checkpoint is dropped. -/
def get_best_checkpoints (fs : FS) (metric : String) (max_epoch : Nat)
    (target_epochs : List Nat) (n_best : Nat) : Except String GbcOut :=
  match gbcLoop fs target_epochs metric (List.range max_epoch) ⟨[], [], []⟩ with
  | Except.error err => Except.error err
  | Except.ok st =>
    let sorted_scores := List.insertionSort scoreKeyLe st.scores
    let best_n_epochs := pySliceLast sorted_scores n_best
    let rest_epochs := pyDropLast sorted_scores n_best
    let best_n_checkpoints := best_n_epochs.map Prod.snd
    let rest_checkpoints :=
      if sorted_scores ≠ [] then
        st.rest ++ List.insertionSort ckptPathLe (rest_epochs.map Prod.snd)
      else
        st.rest.dropLast
    let best_scores := best_n_epochs.map Prod.fst
    Except.ok ⟨best_n_checkpoints, best_scores, rest_checkpoints,
      st.missing, sorted_scores⟩

/-- Relation underlying sorted(..., reverse=True) on natural numbers. -/
def geNat (a b : Nat) : Prop := b ≤ a

instance : DecidableRel geNat := fun a b => inferInstanceAs (Decidable (b ≤ a))

instance : IsTotal Nat geNat := ⟨fun a b => le_total b a⟩

instance : IsTrans Nat geNat := ⟨fun _ _ _ h1 h2 => le_trans h2 h1⟩

/-- Embedding of read_results (run/status.py, lines 131-143).  The epochs
scanned from the validation folder are fs.resultEpochs; the missing epochs are
the set difference of the target epochs and the scanned epochs, sorted in
descending order (Python sorted over a set: duplicates are collapsed first). -/
def read_results (fs : FS) (target_epochs : List Nat) : List Nat × List Nat :=
  let missing_epochs :=
    List.insertionSort geNat
      (target_epochs.dedup.filter (fun e => decide (e ∉ fs.resultEpochs)))
  (target_epochs, missing_epochs)

/-- Python list(range(a, b)) on naturals. -/
def pyRange (a b : Nat) : List Nat := List.range' a (b - a)

/-- Embedding of get_checkpoints_to_eval (run/status.py, lines 146-174).
Checkpoint paths are identified with their epochs (os.path.realpath resolves
each seed_folder/checkpoint{e}.pt path to the checkpoint file of epoch e). -/
def get_checkpoints_to_eval (fs : FS) (eval_init_epoch max_epoch : Nat)
    (ready : Bool) : List Nat × List Nat × List Nat :=
  let target_epochs := pyRange eval_init_epoch (max_epoch + 1)
  let tm := read_results fs target_epochs
  let checkpoints := tm.2.filter (fun e => decide (e ∈ fs.ckpt) || !ready)
  (checkpoints, tm.1, tm.2)

/-- Removal loop at the end of main (run/status.py, lines 746-754): walk the
rest checkpoints, and for each one whose file still exists print an rm line
(unless one of the list-checkpoints flags is set, modelled by suppress) and
delete the file.  The first component is the list of printed epochs, the
second the list of deleted epochs; the current set of existing checkpoint
files is threaded through so that a deleted file is not deleted twice. -/
def removeGo (suppress : Bool) (ckpt : List Nat) : List Nat → List Nat × List Nat
  | [] => ([], [])
  | e :: es =>
    if e ∈ ckpt then
      let r := removeGo suppress (ckpt.erase e) es
      (if suppress then r.1 else e :: r.1, e :: r.2)
    else removeGo suppress ckpt es

/-- State of the symlink name checkpoint_{metric}_best{k}.pt: absent, a
symbolic link whose resolved basename is checkpoint{src}.pt, or a plain
regular file (left behind when a link was replaced by a copy). -/
inductive LinkState where
  | absent
  | linkTo (src : Nat)
  | plainFile
deriving DecidableEq

/-- Filesystem action performed by link_best_model on one link name. -/
inductive LinkAct where
  | removeAct
  | symlinkAct (src : Nat)
deriving DecidableEq

/-- os.path.islink on a link-name state. -/
def isLinkSt : LinkState → Bool
  | LinkState.linkTo _ => true
  | _ => false

/-- os.path.isfile on a link-name state; isfile follows symbolic links, so a
link counts as a file exactly when the checkpoint it points at exists. -/
def isFileSt (ckptE : Nat → Bool) : LinkState → Bool
  | LinkState.linkTo s => ckptE s
  | LinkState.plainFile => true
  | LinkState.absent => false

/-- Body of the loop of link_best_model (run/status.py, lines 344-370) for one
rank name: read the current link target, remove a link pointing elsewhere or
anything that tests as a file, then create the link when the name is free.
Returns the new state of the name and the actions performed on it. -/
def linkIter (ckptE : Nat → Bool) (st : LinkState) (src : Nat) :
    LinkState × List LinkAct :=
  let current_best : Option Nat :=
    match st with
    | LinkState.linkTo s => some s
    | _ => none
  let step1 : LinkState × List LinkAct :=
    if isLinkSt st ∧ current_best ≠ some src then
      (LinkState.absent, [LinkAct.removeAct])
    else if isFileSt ckptE st then
      (LinkState.absent, [LinkAct.removeAct])
    else (st, [])
  if ¬ isLinkSt step1.1 ∧ ¬ isFileSt ckptE step1.1 then
    (LinkState.linkTo src, step1.2 ++ [LinkAct.symlinkAct src])
  else (step1.1, step1.2)

/-- Rank index of the link name for the n-th best checkpoint: nbest - n, an
integer because Python subtraction can go below zero for long best lists. -/
def rankKey (nbest n : Nat) : Int := (nbest : Int) - (n : Int)

/-- Loop of link_best_model over the enumerated best checkpoints, threading
the map from rank index to link-name state and collecting the actions. -/
def lbmGo (ckptE : Nat → Bool) (nbest : Nat) :
    List (Nat × Nat) → (Int → LinkState) → (Int → LinkState) × List (Int × LinkAct)
  | [], links => (links, [])
  | (n, src) :: rest, links =>
    let k := rankKey nbest n
    let it := linkIter ckptE (links k) src
    let links' : Int → LinkState := fun k' => if k' = k then it.1 else links k'
    let r := lbmGo ckptE nbest rest links'
    (r.1, it.2.map (fun a => (k, a)) ++ r.2)

/-- Embedding of link_best_model (run/status.py, lines 339-370): enumerate the
best checkpoints and process the rank name nbest - n for the n-th entry. -/
def link_best_model (ckptE : Nat → Bool) (best_n_checkpoints : List Nat)
    (nbest : Nat) (links : Int → LinkState) :
    (Int → LinkState) × List (Int × LinkAct) :=
  lbmGo ckptE nbest best_n_checkpoints.enum links

/-- Pointwise-update semantics of the link loop: the n-th pair assigns state
linkTo src to rank key nbest - n, later pairs overriding earlier ones. -/
def applyPairs (nbest : Nat) : List (Nat × Nat) → (Int → LinkState) → Int → LinkState
  | [], links => links
  | (n, src) :: rest, links =>
    applyPairs nbest rest
      (fun k' => if k' = rankKey nbest n then LinkState.linkTo src else links k')

/-- Scores collected by the epoch loop, in loop (epoch-ascending) order: one
pair per epoch below max_epoch that reaches the results check (inside the
target range or with an existing checkpoint) and whose results file parses. -/
def collectedScores (fs : FS) (metric : String) (target : List Nat)
    (max_epoch : Nat) : List (ℚ × Nat) :=
  (List.range max_epoch).filterMap (fun e =>
    if e ∈ target ∨ e ∈ fs.ckpt then (scoreOf fs metric e).map (fun q => (q, e))
    else none)

/-- Missing epochs collected by the epoch loop: epochs below max_epoch that
reach the results check but whose results file is absent. -/
def loopMissing (fs : FS) (target : List Nat) (max_epoch : Nat) : List Nat :=
  (List.range max_epoch).filter (fun e =>
    decide ((e ∈ target ∨ e ∈ fs.ckpt) ∧ fs.res e = none))

/-- Rest checkpoints collected inside the epoch loop: epochs below max_epoch
outside the target range whose checkpoint file exists, in epoch order. -/
def loopRest (fs : FS) (target : List Nat) (max_epoch : Nat) : List Nat :=
  (List.range max_epoch).filter (fun e =>
    decide (e ∉ target ∧ e ∈ fs.ckpt))

/-- Filesystem with one checkpoint at epoch 0 and a parsing results file for
it; used with target range [1] so that epoch 0 is scored although out of
range, landing in both the best and the rest lists. -/
def fsOverlap : FS :=
  ⟨[0], fun e => if e = 0 then some ["F-score: 0.5"] else none, []⟩

/-- Return value of get_best_checkpoints on fsOverlap with max epoch 1,
target [1] and n_best 5: epoch 0 is best and deletable at once. -/
def outOverlap : GbcOut := ⟨[0], [50], [0], [], [(50, 0)]⟩

/-- Filesystem whose only results file exists but has no matching score line,
leaving its epoch in none of the best, rest and missing lists. -/
def fsUnparsed : FS := ⟨[0], fun _ => some ["a line without a score"], []⟩

/-- Return value with all five components empty. -/
def outEmpty : GbcOut := ⟨[], [], [], [], []⟩

/-- Filesystem whose only results file belongs to epoch 1; with max epoch 1
the loop stops at epoch 0 and never reads that file. -/
def fsLate : FS :=
  ⟨[], fun e => if e = 1 then some ["F-score: 0.5"] else none, []⟩

/-- Return value of get_best_checkpoints on fsLate: only missing epoch 0. -/
def outLate : GbcOut := ⟨[], [], [], [0], []⟩

/-- Filesystem with checkpoints at epochs 0, 1, 2 and parsing results for
epochs 0 and 1; a well-behaved scenario satisfying all the provisos. -/
def fsTwo : FS :=
  ⟨[0, 1, 2], fun e =>
    if e = 0 then some ["F-score: 0.5"]
    else if e = 1 then some ["F-score: 0.6"] else none, []⟩

/-- Return value of get_best_checkpoints on fsTwo with max epoch 3, target
[0, 1, 2] and n_best 1: epoch 1 is best, epoch 0 deletable, epoch 2 missing. -/
def outTwo : GbcOut := ⟨[1], [60], [0], [2], [(50, 0), (60, 1)]⟩

/-- Filesystem with two checkpoints and no results at all. -/
def fsNoScores : FS := ⟨[0, 1], fun _ => none, []⟩

/-- Return value of get_best_checkpoints on fsNoScores with max epoch 2 and
target [5]: no scores, and the newest checkpoint 1 is dropped from rest. -/
def outNoScores : GbcOut := ⟨[], [], [0], [0, 1], []⟩

/-- Link map with every rank name absent. -/
def linksAbsent : Int → LinkState := fun _ => LinkState.absent

/-- Checkpoint-existence test that finds every checkpoint present. -/
def ckptAll : Nat → Bool := fun _ => true

theorem gbcResultsCheck_ok {fs : FS} {metric : String} {st : LoopState}
    {rest' : List Nat} {e : Nat} {st' : LoopState}
    (h : gbcResultsCheck fs metric st rest' e = Except.ok st') :
    st'.scores = st.scores ++ ((scoreOf fs metric e).map (fun q => (q, e))).toList
    ∧ st'.missing = st.missing ++ (if fs.res e = none then [e] else [])
    ∧ st'.rest = rest' := by
  unfold gbcResultsCheck at h
  cases hres : fs.res e with
  | none =>
    simp only [hres] at h
    cases h
    simp [scoreOf, hres]
  | some lines =>
    simp only [hres] at h
    cases hg : get_score_from_log (some lines) metric with
    | error err =>
      simp only [hg] at h
      exact Except.noConfusion h
    | ok score =>
      simp only [hg] at h
      by_cases hnone : score = [none]
      · rw [if_pos hnone] at h
        cases h
        subst hnone
        simp [scoreOf, hres, hg]
      · rw [if_neg hnone] at h
        rcases score with _ | ⟨_ | q, tl⟩
        · exact Except.noConfusion h
        · exact Except.noConfusion h
        · cases h
          simp [scoreOf, hres, hg]

theorem gbcBody_ok {fs : FS} {target : List Nat} {metric : String}
    {st : LoopState} {e : Nat} {st' : LoopState}
    (h : gbcBody fs target metric st e = Except.ok st') :
    st'.scores = st.scores ++
      (if e ∈ target ∨ e ∈ fs.ckpt
        then (scoreOf fs metric e).map (fun q => (q, e)) else none).toList
    ∧ st'.missing = st.missing ++
      (if (e ∈ target ∨ e ∈ fs.ckpt) ∧ fs.res e = none then [e] else [])
    ∧ st'.rest = st.rest ++ (if e ∉ target ∧ e ∈ fs.ckpt then [e] else []) := by
  unfold gbcBody at h
  by_cases ht : e ∈ target
  · rw [if_pos ht] at h
    obtain ⟨h1, h2, h3⟩ := gbcResultsCheck_ok h
    refine ⟨?_, ?_, ?_⟩
    · rw [h1, if_pos (Or.inl ht)]
    · rw [h2]
      by_cases hres : fs.res e = none
      · rw [if_pos hres, if_pos ⟨Or.inl ht, hres⟩]
      · rw [if_neg hres, if_neg (fun hc => hres hc.2)]
    · rw [h3, if_neg (fun hc => hc.1 ht), List.append_nil]
  · rw [if_neg ht] at h
    by_cases hc : e ∈ fs.ckpt
    · rw [if_pos hc] at h
      obtain ⟨h1, h2, h3⟩ := gbcResultsCheck_ok h
      refine ⟨?_, ?_, ?_⟩
      · rw [h1, if_pos (Or.inr hc)]
      · rw [h2]
        by_cases hres : fs.res e = none
        · rw [if_pos hres, if_pos ⟨Or.inr hc, hres⟩]
        · rw [if_neg hres, if_neg (fun hcc => hres hcc.2)]
      · rw [h3, if_pos ⟨ht, hc⟩]
    · rw [if_neg hc] at h
      cases h
      have hcons : ¬ (e ∈ target ∨ e ∈ fs.ckpt) := fun hor => hor.elim ht hc
      refine ⟨?_, ?_, ?_⟩
      · rw [if_neg hcons, Option.toList_none, List.append_nil]
      · rw [if_neg (fun hcc => hcons hcc.1), List.append_nil]
      · rw [if_neg (fun hcc => hc hcc.2), List.append_nil]

theorem gbcLoop_ok {fs : FS} {target : List Nat} {metric : String} :
    ∀ (L : List Nat) (st st' : LoopState),
      gbcLoop fs target metric L st = Except.ok st' →
      st'.scores = st.scores ++ L.filterMap (fun e =>
          if e ∈ target ∨ e ∈ fs.ckpt then (scoreOf fs metric e).map (fun q => (q, e))
          else none)
      ∧ st'.missing = st.missing ++ L.filter (fun e =>
          decide ((e ∈ target ∨ e ∈ fs.ckpt) ∧ fs.res e = none))
      ∧ st'.rest = st.rest ++ L.filter (fun e =>
          decide (e ∉ target ∧ e ∈ fs.ckpt))
  | [], st, st', h => by
    cases h
    simp
  | e :: es, st, st', h => by
    rw [gbcLoop] at h
    cases hb : gbcBody fs target metric st e with
    | error err => rw [hb] at h; cases h
    | ok st1 =>
      rw [hb] at h
      obtain ⟨ih1, ih2, ih3⟩ := gbcLoop_ok es st1 st' h
      obtain ⟨b1, b2, b3⟩ := gbcBody_ok hb
      refine ⟨?_, ?_, ?_⟩
      · rw [ih1, b1, List.filterMap_cons, List.append_assoc]
        cases hfe : (if e ∈ target ∨ e ∈ fs.ckpt
            then (scoreOf fs metric e).map (fun q => (q, e)) else none) with
        | none => simp
        | some p => simp
      · rw [ih2, b2, List.filter_cons, List.append_assoc]
        by_cases hp : (e ∈ target ∨ e ∈ fs.ckpt) ∧ fs.res e = none
        · simp [hp]
        · simp [hp]
      · rw [ih3, b3, List.filter_cons, List.append_assoc]
        by_cases hp : e ∉ target ∧ e ∈ fs.ckpt
        · simp [hp]
        · simp [hp]

/-- Shape of the return value of get_best_checkpoints on success, in terms of
the three lists collected by the epoch loop. -/
theorem gbc_ok {fs : FS} {metric : String} {max_epoch : Nat}
    {target : List Nat} {n_best : Nat} {out : GbcOut}
    (h : get_best_checkpoints fs metric max_epoch target n_best = Except.ok out) :
    out.sorted_scores =
      List.insertionSort scoreKeyLe (collectedScores fs metric target max_epoch)
    ∧ out.best_n_checkpoints = (pySliceLast out.sorted_scores n_best).map Prod.snd
    ∧ out.best_scores = (pySliceLast out.sorted_scores n_best).map Prod.fst
    ∧ out.missing_epochs = loopMissing fs target max_epoch
    ∧ out.rest_checkpoints =
        (if out.sorted_scores ≠ [] then
          loopRest fs target max_epoch ++
            List.insertionSort ckptPathLe ((pyDropLast out.sorted_scores n_best).map Prod.snd)
        else (loopRest fs target max_epoch).dropLast) := by
  unfold get_best_checkpoints at h
  cases hl : gbcLoop fs target metric (List.range max_epoch) ⟨[], [], []⟩ with
  | error err => rw [hl] at h; cases h
  | ok st =>
    rw [hl] at h
    obtain ⟨l1, l2, l3⟩ := gbcLoop_ok (List.range max_epoch) ⟨[], [], []⟩ st hl
    simp only [List.nil_append] at l1 l2 l3
    cases h
    refine ⟨by rw [l1]; rfl, rfl, rfl, by rw [l2]; rfl, ?_⟩
    rw [l1, l3]
    rfl

theorem mem_collectedScores {fs : FS} {metric : String} {target : List Nat}
    {max_epoch : Nat} {q : ℚ} {e : Nat} :
    (q, e) ∈ collectedScores fs metric target max_epoch ↔
      e < max_epoch ∧ (e ∈ target ∨ e ∈ fs.ckpt) ∧ scoreOf fs metric e = some q := by
  unfold collectedScores
  rw [List.mem_filterMap]
  constructor
  · rintro ⟨a, ha, hf⟩
    by_cases hcon : a ∈ target ∨ a ∈ fs.ckpt
    · rw [if_pos hcon] at hf
      cases hsc : scoreOf fs metric a with
      | none => rw [hsc] at hf; cases hf
      | some q' =>
        rw [hsc] at hf
        obtain ⟨hq, he⟩ : q' = q ∧ a = e := by
          have := Option.some.inj hf
          exact ⟨congrArg Prod.fst this, congrArg Prod.snd this⟩
        subst hq; subst he
        exact ⟨List.mem_range.mp ha, hcon, hsc⟩
    · rw [if_neg hcon] at hf
      cases hf
  · rintro ⟨hlt, hcon, hsc⟩
    refine ⟨e, List.mem_range.mpr hlt, ?_⟩
    rw [if_pos hcon, hsc]
    rfl

theorem mem_loopMissing {fs : FS} {target : List Nat} {max_epoch e : Nat} :
    e ∈ loopMissing fs target max_epoch ↔
      e < max_epoch ∧ (e ∈ target ∨ e ∈ fs.ckpt) ∧ fs.res e = none := by
  unfold loopMissing
  rw [List.mem_filter, List.mem_range]
  simp [and_assoc]

theorem mem_loopRest {fs : FS} {target : List Nat} {max_epoch e : Nat} :
    e ∈ loopRest fs target max_epoch ↔
      e < max_epoch ∧ e ∉ target ∧ e ∈ fs.ckpt := by
  unfold loopRest
  rw [List.mem_filter, List.mem_range]
  simp [and_assoc]

theorem filterMap_snd_sublist {f : Nat → Option (ℚ × Nat)}
    (hf : ∀ e p, f e = some p → p.2 = e) :
    ∀ L : List Nat, ((L.filterMap f).map Prod.snd).Sublist L
  | [] => by simp
  | e :: es => by
    rw [List.filterMap_cons]
    cases hfe : f e with
    | none => exact (filterMap_snd_sublist hf es).cons e
    | some p =>
      rw [List.map_cons, hf e p hfe]
      exact (filterMap_snd_sublist hf es).cons₂ e

theorem collectedScores_snd_nodup {fs : FS} {metric : String} {target : List Nat}
    {max_epoch : Nat} :
    ((collectedScores fs metric target max_epoch).map Prod.snd).Nodup := by
  refine List.Nodup.sublist ?_ (List.nodup_range max_epoch)
  unfold collectedScores
  refine filterMap_snd_sublist ?_ _
  intro e p hf
  by_cases hcon : e ∈ target ∨ e ∈ fs.ckpt
  · rw [if_pos hcon] at hf
    cases hsc : scoreOf fs metric e with
    | none => rw [hsc] at hf; cases hf
    | some q =>
      rw [hsc] at hf
      have := Option.some.inj hf
      rw [← this]
  · rw [if_neg hcon] at hf
    cases hf

theorem filter_orderedInsert_of_pos {r : α → α → Prop} [DecidableRel r]
    {p : α → Bool} {a : α} (hp : p a = true) (ha : ∀ b, p b = true → r a b) :
    ∀ l : List α, (List.orderedInsert r a l).filter p = a :: l.filter p
  | [] => by simp [hp]
  | b :: bs => by
    rw [List.orderedInsert]
    by_cases hr : r a b
    · rw [if_pos hr]
      simp [List.filter_cons, hp]
    · rw [if_neg hr]
      have hpb : p b = false := by
        cases hpb : p b with
        | false => rfl
        | true => exact absurd (ha b hpb) hr
      rw [List.filter_cons, hpb]
      simp only [Bool.false_eq_true, if_false]
      rw [filter_orderedInsert_of_pos hp ha bs, List.filter_cons, hpb]
      simp

theorem filter_orderedInsert_of_neg {r : α → α → Prop} [DecidableRel r]
    {p : α → Bool} {a : α} (hp : p a = false) :
    ∀ l : List α, (List.orderedInsert r a l).filter p = l.filter p
  | [] => by simp [hp]
  | b :: bs => by
    rw [List.orderedInsert]
    by_cases hr : r a b
    · rw [if_pos hr]
      simp [List.filter_cons, hp]
    · rw [if_neg hr]
      rw [List.filter_cons, List.filter_cons, filter_orderedInsert_of_neg hp bs]

/-- Stability of the sort of the score list: the sublist of pairs carrying any
fixed score q is unchanged by sorting, i.e. ties keep their input order. -/
theorem insertionSort_filter_score (q : ℚ) :
    ∀ l : List (ℚ × Nat),
      (List.insertionSort scoreKeyLe l).filter (fun x => decide (x.1 = q)) =
        l.filter (fun x => decide (x.1 = q))
  | [] => rfl
  | a :: l => by
    rw [List.insertionSort]
    by_cases hpa : a.1 = q
    · rw [filter_orderedInsert_of_pos (by simp [hpa]) ?ha]
      case ha =>
        intro b hb
        have hbq : b.1 = q := by simpa using hb
        unfold scoreKeyLe
        rw [hpa, hbq]
      rw [insertionSort_filter_score q l, List.filter_cons]
      simp [hpa]
    · rw [filter_orderedInsert_of_neg (by simp [hpa])]
      rw [insertionSort_filter_score q l, List.filter_cons]
      simp [hpa]

theorem pySplit_eq (l : List α) (n : Nat) :
    pyDropLast l n ++ pySliceLast l n = l := by
  unfold pyDropLast pySliceLast
  by_cases hn : n = 0
  · simp [hn]
  · rw [if_neg hn, if_neg hn, List.take_append_drop]

theorem pySliceLast_length_le (l : List α) {n : Nat} (hn : 0 < n) :
    (pySliceLast l n).length ≤ n := by
  unfold pySliceLast
  rw [if_neg (Nat.pos_iff_ne_zero.mp hn)]
  rw [List.length_drop]
  omega

theorem removeGo_removed_of_mem {suppress : Bool} {e : Nat} :
    ∀ {ckpt rest : List Nat}, e ∈ rest → e ∈ ckpt →
      e ∈ (removeGo suppress ckpt rest).2
  | _, [], hr, _ => absurd hr (List.not_mem_nil e)
  | ckpt, f :: es, hr, hc => by
    rw [removeGo]
    by_cases hf : f ∈ ckpt
    · rw [if_pos hf]
      rcases List.mem_cons.mp hr with he | he
      · subst he
        exact List.mem_cons_self e _
      · by_cases hef : e = f
        · subst hef
          exact List.mem_cons_self e _
        · refine List.mem_cons_of_mem f ?_
          exact removeGo_removed_of_mem he ((List.mem_erase_of_ne hef).mpr hc)
    · rw [if_neg hf]
      rcases List.mem_cons.mp hr with he | he
      · subst he; exact absurd hc hf
      · exact removeGo_removed_of_mem he hc

theorem removeGo_removed_subset {suppress : Bool} {e : Nat} :
    ∀ {ckpt rest : List Nat}, e ∈ (removeGo suppress ckpt rest).2 →
      e ∈ rest ∧ e ∈ ckpt
  | _, [], h => absurd h (List.not_mem_nil e)
  | ckpt, f :: es, h => by
    rw [removeGo] at h
    by_cases hf : f ∈ ckpt
    · rw [if_pos hf] at h
      rcases List.mem_cons.mp h with he | he
      · subst he
        exact ⟨List.mem_cons_self e _, hf⟩
      · obtain ⟨h1, h2⟩ := removeGo_removed_subset he
        exact ⟨List.mem_cons_of_mem f h1, (List.erase_sublist f ckpt).mem h2⟩
    · rw [if_neg hf] at h
      obtain ⟨h1, h2⟩ := removeGo_removed_subset h
      exact ⟨List.mem_cons_of_mem f h1, h2⟩

theorem removeGo_printed_eq :
    ∀ (ckpt rest : List Nat),
      (removeGo false ckpt rest).1 = (removeGo false ckpt rest).2
  | _, [] => rfl
  | ckpt, f :: es => by
    rw [removeGo]
    by_cases hf : f ∈ ckpt
    · rw [if_pos hf]
      simpa using removeGo_printed_eq (ckpt.erase f) es
    · rw [if_neg hf]
      exact removeGo_printed_eq ckpt es

theorem removeGo_printed_suppressed :
    ∀ (ckpt rest : List Nat), (removeGo true ckpt rest).1 = []
  | _, [] => rfl
  | ckpt, f :: es => by
    rw [removeGo]
    by_cases hf : f ∈ ckpt
    · rw [if_pos hf]
      simpa using removeGo_printed_suppressed (ckpt.erase f) es
    · rw [if_neg hf]
      exact removeGo_printed_suppressed ckpt es

theorem loopRest_pairwise_lt {fs : FS} {target : List Nat} {max_epoch : Nat} :
    (loopRest fs target max_epoch).Pairwise (· < ·) := by
  unfold loopRest
  exact List.Pairwise.sublist (List.filter_sublist _) (List.pairwise_lt_range max_epoch)

theorem mem_dropLast_lt_getLast {l : List Nat} (hs : l.Pairwise (· < ·))
    (hne : l ≠ []) {e : Nat} (he : e ∈ l.dropLast) : e < l.getLast hne := by
  have hsplit := List.dropLast_append_getLast hne
  rw [← hsplit] at hs
  have := (List.pairwise_append.mp hs).2.2
  exact this e he (l.getLast hne) (List.mem_singleton_self _)

/-- Whatever the prior state of a rank name, one iteration of the link loop
leaves it as a link to the requested source: a link elsewhere is removed, a
plain file or a link resolving to an existing file is removed, and the link
is then created whenever the name is free. -/
theorem linkIter_fst (ckptE : Nat → Bool) (st : LinkState) (src : Nat) :
    (linkIter ckptE st src).1 = LinkState.linkTo src := by
  cases st with
  | absent => rfl
  | plainFile => rfl
  | linkTo s =>
    by_cases hs : s = src
    · subst hs
      cases hc : ckptE s with
      | true => simp [linkIter, isLinkSt, isFileSt, hc]
      | false => simp [linkIter, isLinkSt, isFileSt, hc]
    · simp [linkIter, isLinkSt, isFileSt, hs]

theorem lbmGo_fst (ckptE : Nat → Bool) (nbest : Nat) :
    ∀ (pairs : List (Nat × Nat)) (links : Int → LinkState),
      (lbmGo ckptE nbest pairs links).1 = applyPairs nbest pairs links
  | [], _ => rfl
  | (n, src) :: rest, links => by
    rw [lbmGo, applyPairs]
    simp only [linkIter_fst]
    exact lbmGo_fst ckptE nbest rest _

theorem applyPairs_unwritten {nbest : Nat} {k : Int} :
    ∀ {pairs : List (Nat × Nat)} {links : Int → LinkState},
      (∀ p ∈ pairs, rankKey nbest p.1 ≠ k) →
      applyPairs nbest pairs links k = links k
  | [], _, _ => rfl
  | (n, src) :: rest, links, hun => by
    rw [applyPairs]
    rw [applyPairs_unwritten (fun p hp => hun p (List.mem_cons_of_mem _ hp))]
    rw [if_neg ?hne]
    case hne =>
      intro hk
      exact hun (n, src) (List.mem_cons_self _ _) (by simpa using hk.symm)

theorem applyPairs_congr {nbest : Nat} :
    ∀ (pairs : List (Nat × Nat)) (f g : Int → LinkState) (k : Int),
      (∀ k' : Int, f k' = g k' ∨ ∃ p ∈ pairs, rankKey nbest p.1 = k') →
      applyPairs nbest pairs f k = applyPairs nbest pairs g k
  | [], f, g, k, hfg => by
    rcases hfg k with h | h
    · exact h
    · obtain ⟨p, hp, _⟩ := h
      exact absurd hp (List.not_mem_nil p)
  | (n, src) :: rest, f, g, k, hfg => by
    rw [applyPairs, applyPairs]
    refine applyPairs_congr rest _ _ k ?_
    intro k'
    by_cases hk : k' = rankKey nbest n
    · left; rw [if_pos hk, if_pos hk]
    · rw [if_neg hk, if_neg hk]
      rcases hfg k' with h | h
      · exact Or.inl h
      · obtain ⟨p, hp, hpk⟩ := h
        rcases List.mem_cons.mp hp with hph | hph
        · subst hph
          exact absurd hpk.symm hk
        · exact Or.inr ⟨p, hph, hpk⟩

theorem mem_read_results_missing {fs : FS} {target_epochs : List Nat} {e : Nat} :
    e ∈ (read_results fs target_epochs).2 ↔
      e ∈ target_epochs ∧ e ∉ fs.resultEpochs := by
  show e ∈ List.insertionSort geNat _ ↔ _
  rw [(List.perm_insertionSort geNat _).mem_iff, List.mem_filter, List.mem_dedup]
  simp

theorem read_results_missing_sorted {fs : FS} {target_epochs : List Nat} :
    (read_results fs target_epochs).2.Pairwise (· > ·) := by
  show (List.insertionSort geNat _).Pairwise _
  have hsorted : (List.insertionSort geNat
      (target_epochs.dedup.filter (fun e => decide (e ∉ fs.resultEpochs)))).Pairwise geNat :=
    List.sorted_insertionSort geNat _
  have hnodup : (List.insertionSort geNat
      (target_epochs.dedup.filter (fun e => decide (e ∉ fs.resultEpochs)))).Nodup :=
    (List.perm_insertionSort geNat _).nodup_iff.mpr
      (List.Nodup.filter _ (List.nodup_dedup target_epochs))
  refine (hsorted.and hnodup).imp ?_
  rintro a b ⟨hge, hne⟩
  exact lt_of_le_of_ne hge (Ne.symm hne)

/-- C4: for every target epoch range and every set of result files on disk,
read_results returns as missing epochs exactly the target range minus the
epochs extracted from existing result files, sorted in descending order, and
returns the target range itself unchanged. -/
theorem read_results_spec (fs : FS) (target_epochs : List Nat) :
    (read_results fs target_epochs).1 = target_epochs
    ∧ (∀ e, e ∈ (read_results fs target_epochs).2 ↔
        e ∈ target_epochs ∧ e ∉ fs.resultEpochs)
    ∧ (read_results fs target_epochs).2.Pairwise (· > ·) :=
  ⟨rfl, fun _ => mem_read_results_missing, read_results_missing_sorted⟩

/-- C5 (amended): with a supported metric, a results file whose first matching
line parses yields the single parsed score scaled by 100; a file with no
matching line yields the single-element list holding none; but an absent file
makes get_score_from_log raise FileNotFoundError instead of returning a value
(its callers always check os.path.isfile first). -/
theorem get_score_from_log_spec (m : String) (hm : supportsSmatch m = true) :
    (∀ (lines : List String) (c : List Char) (q : ℚ),
        lines.findSome? smatchMatch = some c → pyFloat c = some q →
        get_score_from_log (some lines) m = Except.ok [some (100 * q)])
    ∧ (∀ lines : List String, lines.findSome? smatchMatch = none →
        get_score_from_log (some lines) m = Except.ok [none])
    ∧ get_score_from_log none m = Except.error "FileNotFoundError" := by
  refine ⟨?_, ?_, ?_⟩
  · intro lines c q hfind hq
    simp [get_score_from_log, hm, hfind, hq]
  · intro lines hfind
    simp [get_score_from_log, hm, hfind]
  · simp [get_score_from_log, hm]

theorem get_score_from_log_spec_witness :
    supportsSmatch "smatch" = true
    ∧ get_score_from_log (some ["F-score: 3"]) "smatch" =
        Except.ok [some (100 * (3 : ℚ))]
    ∧ get_score_from_log (some ["nothing here"]) "smatch" = Except.ok [none]
    ∧ get_score_from_log none "smatch" = Except.error "FileNotFoundError" := by
  have h := get_score_from_log_spec "smatch" (by decide)
  exact ⟨by decide, h.1 ["F-score: 3"] ['3'] 3 (by decide) (by decide),
    h.2.1 ["nothing here"] (by decide), h.2.2⟩

/-- C5 counterexample: on an absent file get_score_from_log raises
FileNotFoundError rather than returning the single-element list holding none,
contradicting the claim that an absent file returns that list. -/
theorem get_score_from_log_absent_raises :
    get_score_from_log none "smatch" = Except.error "FileNotFoundError"
    ∧ get_score_from_log none "smatch" ≠ Except.ok [none] :=
  ⟨by decide, by decide⟩

/-- C8 (amended): get_score_from_log raises on every input when the metric
name does not contain smatch; with a supported metric, on a readable file it
raises exactly when the first matching line has a captured group that Python
float() rejects (more than one dot), so a supported metric alone does not
guarantee absence of exceptions. -/
theorem get_score_from_log_raises_iff (m : String) (f : Option (List String)) :
    (supportsSmatch m = false →
      get_score_from_log f m = Except.error ("Unknown score type " ++ m))
    ∧ (supportsSmatch m = true → ∀ lines : List String, f = some lines →
        ((∃ err, get_score_from_log f m = Except.error err) ↔
          ∃ c, lines.findSome? smatchMatch = some c ∧ pyFloat c = none)) := by
  constructor
  · intro hm
    simp [get_score_from_log, hm]
  · intro hm lines hf
    subst hf
    cases hfind : lines.findSome? smatchMatch with
    | none =>
      simp [get_score_from_log, hm, hfind]
    | some c =>
      cases hq : pyFloat c with
      | none =>
        simp only [get_score_from_log, hm, hfind, hq, if_true]
        exact ⟨fun _ => ⟨c, rfl, hq⟩, fun _ => ⟨"ValueError", rfl⟩⟩
      | some q =>
        simp only [get_score_from_log, hm, hfind, hq, if_true]
        constructor
        · rintro ⟨err, herr⟩
          exact absurd herr (by simp)
        · rintro ⟨c', hc', hq'⟩
          cases hc'
          rw [hq] at hq'
          cases hq'

theorem get_score_from_log_raises_iff_witness :
    get_score_from_log none "bleu" = Except.error ("Unknown score type " ++ "bleu")
    ∧ ((∃ err, get_score_from_log (some ["F-score: 1.2.3"]) "smatch" = Except.error err) ↔
        ∃ c, ["F-score: 1.2.3"].findSome? smatchMatch = some c ∧ pyFloat c = none) :=
  ⟨(get_score_from_log_raises_iff "bleu" none).1 (by decide),
    (get_score_from_log_raises_iff "smatch" (some ["F-score: 1.2.3"])).2 (by decide)
      ["F-score: 1.2.3"] rfl⟩

/-- C8 counterexample: with the supported metric smatch and a readable file
whose matching line captures 1.2.3, get_score_from_log raises ValueError, so
raising is not equivalent to the metric being unsupported. -/
theorem get_score_from_log_supported_raise :
    supportsSmatch "smatch" = true
    ∧ get_score_from_log (some ["F-score: 1.2.3"]) "smatch" =
        Except.error "ValueError" :=
  ⟨by decide, by decide⟩

/-- C10: the checkpoint list under ready=True is the ready=False list
restricted to epochs with an existing checkpoint file; both lists inherit the
descending missing-epoch order; and the returned target epochs are exactly
the inclusive range from EVAL_INIT_EPOCH to MAX_EPOCH in both calls. -/
theorem get_checkpoints_to_eval_spec (fs : FS) (eval_init_epoch max_epoch : Nat) :
    (get_checkpoints_to_eval fs eval_init_epoch max_epoch true).1 =
      (get_checkpoints_to_eval fs eval_init_epoch max_epoch false).1.filter
        (fun e => decide (e ∈ fs.ckpt))
    ∧ (get_checkpoints_to_eval fs eval_init_epoch max_epoch false).1 =
        (get_checkpoints_to_eval fs eval_init_epoch max_epoch false).2.2
    ∧ (get_checkpoints_to_eval fs eval_init_epoch max_epoch true).2.2 =
        (get_checkpoints_to_eval fs eval_init_epoch max_epoch false).2.2
    ∧ (get_checkpoints_to_eval fs eval_init_epoch max_epoch true).1.Pairwise (· > ·)
    ∧ (get_checkpoints_to_eval fs eval_init_epoch max_epoch false).1.Pairwise (· > ·)
    ∧ (∀ e, e ∈ (get_checkpoints_to_eval fs eval_init_epoch max_epoch true).2.1 ↔
        eval_init_epoch ≤ e ∧ e ≤ max_epoch)
    ∧ (get_checkpoints_to_eval fs eval_init_epoch max_epoch true).2.1 =
        (get_checkpoints_to_eval fs eval_init_epoch max_epoch false).2.1 := by
  simp only [get_checkpoints_to_eval]
  refine ⟨?_, ?_, trivial, ?_, ?_, ?_, trivial⟩
  · rw [List.filter_filter]
    refine List.filter_congr ?_
    intro e _
    simp
  · refine (List.filter_congr ?_).trans (List.filter_true _)
    intro e _
    simp
  · exact List.Pairwise.sublist (List.filter_sublist _) read_results_missing_sorted
  · exact List.Pairwise.sublist (List.filter_sublist _) read_results_missing_sorted
  · intro e
    show e ∈ pyRange eval_init_epoch (max_epoch + 1) ↔ _
    unfold pyRange
    rw [List.mem_range'_1]
    omega

theorem pySliceLast_subset {l : List α} {n : Nat} {x : α}
    (hx : x ∈ pySliceLast l n) : x ∈ l := by
  unfold pySliceLast at hx
  by_cases hn : n = 0
  · rwa [if_pos hn] at hx
  · rw [if_neg hn] at hx
    exact List.drop_subset _ _ hx

theorem pyDropLast_subset {l : List α} {n : Nat} {x : α}
    (hx : x ∈ pyDropLast l n) : x ∈ l := by
  unfold pyDropLast at hx
  by_cases hn : n = 0
  · rw [if_pos hn] at hx
    exact absurd hx (List.not_mem_nil x)
  · rw [if_neg hn] at hx
    exact List.take_subset _ _ hx

/-- Membership in the sorted score list returned by get_best_checkpoints:
exactly the epochs below max_epoch reaching the results check whose results
file parses, paired with their parsed scores. -/
theorem mem_sorted_scores_of_gbc {fs : FS} {metric : String} {max_epoch : Nat}
    {target : List Nat} {n_best : Nat} {out : GbcOut}
    (h : get_best_checkpoints fs metric max_epoch target n_best = Except.ok out)
    {q : ℚ} {e : Nat} :
    (q, e) ∈ out.sorted_scores ↔
      e < max_epoch ∧ (e ∈ target ∨ e ∈ fs.ckpt) ∧ scoreOf fs metric e = some q := by
  rw [(gbc_ok h).1, (List.perm_insertionSort scoreKeyLe _).mem_iff]
  exact mem_collectedScores

theorem gbc_best_epoch_scored {fs : FS} {metric : String} {max_epoch : Nat}
    {target : List Nat} {n_best : Nat} {out : GbcOut}
    (h : get_best_checkpoints fs metric max_epoch target n_best = Except.ok out)
    {e : Nat} (he : e ∈ out.best_n_checkpoints) :
    ∃ q, (q, e) ∈ out.sorted_scores := by
  rw [(gbc_ok h).2.1] at he
  obtain ⟨p, hp, hpe⟩ := List.mem_map.mp he
  refine ⟨p.1, ?_⟩
  rw [show (p.1, e) = p from Prod.ext rfl hpe.symm]
  exact pySliceLast_subset hp

theorem gbc_rest_epoch_char {fs : FS} {metric : String} {max_epoch : Nat}
    {target : List Nat} {n_best : Nat} {out : GbcOut}
    (h : get_best_checkpoints fs metric max_epoch target n_best = Except.ok out)
    {e : Nat} (he : e ∈ out.rest_checkpoints) :
    (e < max_epoch ∧ e ∉ target ∧ e ∈ fs.ckpt)
    ∨ ∃ q, (q, e) ∈ out.sorted_scores ∧ (q, e) ∈ pyDropLast out.sorted_scores n_best := by
  rw [(gbc_ok h).2.2.2.2] at he
  by_cases hne : out.sorted_scores ≠ []
  · rw [if_pos hne] at he
    rcases List.mem_append.mp he with hl | hr
    · exact Or.inl (mem_loopRest.mp hl)
    · rw [(List.perm_insertionSort ckptPathLe _).mem_iff] at hr
      obtain ⟨p, hp, hpe⟩ := List.mem_map.mp hr
      refine Or.inr ⟨p.1, ?_, ?_⟩
      · rw [show (p.1, e) = p from Prod.ext rfl hpe.symm]
        exact pyDropLast_subset hp
      · rwa [show (p.1, e) = p from Prod.ext rfl hpe.symm]
  · rw [if_neg hne] at he
    exact Or.inl (mem_loopRest.mp (List.dropLast_subset _ he))

/-- Every epoch in any of the three returned lists is below max_epoch. -/
theorem gbc_epochs_lt {fs : FS} {metric : String} {max_epoch : Nat}
    {target : List Nat} {n_best : Nat} {out : GbcOut}
    (h : get_best_checkpoints fs metric max_epoch target n_best = Except.ok out) :
    (∀ e ∈ out.best_n_checkpoints, e < max_epoch)
    ∧ (∀ e ∈ out.rest_checkpoints, e < max_epoch)
    ∧ (∀ e ∈ out.missing_epochs, e < max_epoch) := by
  refine ⟨?_, ?_, ?_⟩
  · intro e he
    obtain ⟨q, hq⟩ := gbc_best_epoch_scored h he
    exact ((mem_sorted_scores_of_gbc h).mp hq).1
  · intro e he
    rcases gbc_rest_epoch_char h he with ⟨hlt, _, _⟩ | ⟨q, hq, _⟩
    · exact hlt
    · exact ((mem_sorted_scores_of_gbc h).mp hq).1
  · intro e he
    rw [(gbc_ok h).2.2.2.1] at he
    exact (mem_loopMissing.mp he).1

/-- C9: the epoch loop of get_best_checkpoints covers only epochs 0 through
MAX_EPOCH - 1, so the final epoch MAX_EPOCH appears in none of the returned
best, rest (deletable) or missing lists, and remove mode never deletes the
checkpoint of the final epoch. -/
theorem gbc_final_epoch_untouched {fs : FS} {metric : String} {max_epoch : Nat}
    {target : List Nat} {n_best : Nat} {out : GbcOut}
    (h : get_best_checkpoints fs metric max_epoch target n_best = Except.ok out) :
    max_epoch ∉ out.best_n_checkpoints
    ∧ max_epoch ∉ out.rest_checkpoints
    ∧ max_epoch ∉ out.missing_epochs
    ∧ ∀ suppress : Bool,
        max_epoch ∉ (removeGo suppress fs.ckpt out.rest_checkpoints).2 := by
  obtain ⟨h1, h2, h3⟩ := gbc_epochs_lt h
  refine ⟨fun hc => ?_, fun hc => ?_, fun hc => ?_, fun suppress hc => ?_⟩
  · exact Nat.lt_irrefl max_epoch (h1 _ hc)
  · exact Nat.lt_irrefl max_epoch (h2 _ hc)
  · exact Nat.lt_irrefl max_epoch (h3 _ hc)
  · exact Nat.lt_irrefl max_epoch (h2 _ (removeGo_removed_subset hc).1)

theorem gbc_sorted_snd_nodup {fs : FS} {metric : String} {max_epoch : Nat}
    {target : List Nat} {n_best : Nat} {out : GbcOut}
    (h : get_best_checkpoints fs metric max_epoch target n_best = Except.ok out) :
    (out.sorted_scores.map Prod.snd).Nodup := by
  rw [(gbc_ok h).1]
  exact ((List.perm_insertionSort scoreKeyLe _).map Prod.snd).nodup_iff.mpr
    collectedScores_snd_nodup

theorem map_snd_pySplit (l : List (ℚ × Nat)) (n : Nat) :
    l.map Prod.snd =
      (pyDropLast l n).map Prod.snd ++ (pySliceLast l n).map Prod.snd := by
  rw [← List.map_append, pySplit_eq]

/-- Provided every scored epoch lies inside the target range, the best and
rest lists are disjoint (this is the hypothesis that fails in the
counterexamples: an out-of-range epoch can be scored and appear in both). -/
theorem gbc_best_rest_disjoint {fs : FS} {metric : String} {max_epoch : Nat}
    {target : List Nat} {n_best : Nat} {out : GbcOut}
    (h : get_best_checkpoints fs metric max_epoch target n_best = Except.ok out)
    (H1 : ∀ p ∈ out.sorted_scores, p.2 ∈ target) :
    ∀ e ∈ out.best_n_checkpoints, e ∉ out.rest_checkpoints := by
  intro e hbest hrest
  obtain ⟨q, hq⟩ := gbc_best_epoch_scored h hbest
  rcases gbc_rest_epoch_char h hrest with ⟨_, hnt, _⟩ | ⟨q', _, hdrop⟩
  · exact hnt (H1 (q, e) hq)
  · have hnodup := gbc_sorted_snd_nodup h
    rw [map_snd_pySplit out.sorted_scores n_best] at hnodup
    have hdisj := List.disjoint_of_nodup_append hnodup
    have hmem1 : e ∈ (pyDropLast out.sorted_scores n_best).map Prod.snd :=
      List.mem_map.mpr ⟨(q', e), hdrop, rfl⟩
    have hmem2 : e ∈ (pySliceLast out.sorted_scores n_best).map Prod.snd := by
      rw [(gbc_ok h).2.1] at hbest
      exact hbest
    exact hdisj hmem1 hmem2

/-- C6: when no epoch has a parsed score, the most recent existing checkpoint
is excluded from the deletable rest list, so remove mode never deletes the
newest checkpoint before scoring has started. -/
theorem gbc_no_scores_keeps_newest {fs : FS} {metric : String} {max_epoch : Nat}
    {target : List Nat} {n_best : Nat} {out : GbcOut}
    (h : get_best_checkpoints fs metric max_epoch target n_best = Except.ok out)
    (hempty : out.sorted_scores = [])
    {e : Nat} (_he : e ∈ fs.ckpt) (hmax : ∀ e' ∈ fs.ckpt, e' ≤ e) :
    e ∉ out.rest_checkpoints
    ∧ ∀ suppress : Bool,
        e ∉ (removeGo suppress fs.ckpt out.rest_checkpoints).2 := by
  have hrest : out.rest_checkpoints = (loopRest fs target max_epoch).dropLast := by
    have h5 := (gbc_ok h).2.2.2.2
    rw [hempty] at h5
    simpa using h5
  have hnot : e ∉ out.rest_checkpoints := by
    intro hc
    rw [hrest] at hc
    have hne : loopRest fs target max_epoch ≠ [] := by
      intro h0
      rw [h0] at hc
      exact absurd hc (List.not_mem_nil e)
    have hlt := mem_dropLast_lt_getLast loopRest_pairwise_lt hne hc
    have hlast_mem := List.getLast_mem hne
    have hlast_ckpt := (mem_loopRest.mp hlast_mem).2.2
    have := hmax _ hlast_ckpt
    omega
  exact ⟨hnot, fun _ hc => hnot (removeGo_removed_subset hc).1⟩

/-- C1 (amended): on success best_n_checkpoints has at most n_best entries
when n_best > 0.  Provided additionally that every scored epoch lies in the
target range and that the results file of every considered epoch parses when
present, the union of best, rest (deletable) and missing is exactly the set
of epochs below MAX_EPOCH that are in the target range or have an existing
checkpoint, with best and rest disjoint.  Without these provisos the claimed
partition fails, see the counterexample. -/
theorem gbc_bound_partition {fs : FS} {metric : String} {max_epoch : Nat}
    {target : List Nat} {n_best : Nat} {out : GbcOut}
    (h : get_best_checkpoints fs metric max_epoch target n_best = Except.ok out)
    (hn : 0 < n_best)
    (H1 : ∀ p ∈ out.sorted_scores, p.2 ∈ target)
    (H2 : ∀ e, e < max_epoch → (e ∈ target ∨ e ∈ fs.ckpt) → fs.res e ≠ none →
      (scoreOf fs metric e).isSome = true) :
    out.best_n_checkpoints.length ≤ n_best
    ∧ (∀ e ∈ out.best_n_checkpoints, e ∉ out.rest_checkpoints)
    ∧ ∀ e, (e ∈ out.best_n_checkpoints ∨ e ∈ out.rest_checkpoints ∨
          e ∈ out.missing_epochs)
        ↔ (e < max_epoch ∧ (e ∈ target ∨ e ∈ fs.ckpt)) := by
  refine ⟨?_, gbc_best_rest_disjoint h H1, ?_⟩
  · rw [(gbc_ok h).2.1, List.length_map]
    exact pySliceLast_length_le _ hn
  · intro e
    constructor
    · rintro (hbest | hrest | hmiss)
      · obtain ⟨q, hq⟩ := gbc_best_epoch_scored h hbest
        have hc := (mem_sorted_scores_of_gbc h).mp hq
        exact ⟨hc.1, hc.2.1⟩
      · rcases gbc_rest_epoch_char h hrest with ⟨hlt, _, hck⟩ | ⟨q, hq, _⟩
        · exact ⟨hlt, Or.inr hck⟩
        · have hc := (mem_sorted_scores_of_gbc h).mp hq
          exact ⟨hc.1, hc.2.1⟩
      · rw [(gbc_ok h).2.2.2.1] at hmiss
        have hc := mem_loopMissing.mp hmiss
        exact ⟨hc.1, hc.2.1⟩
    · rintro ⟨hlt, hcon⟩
      cases hres : fs.res e with
      | none =>
        refine Or.inr (Or.inr ?_)
        rw [(gbc_ok h).2.2.2.1]
        exact mem_loopMissing.mpr ⟨hlt, hcon, hres⟩
      | some lines =>
        have hsome := H2 e hlt hcon (by rw [hres]; exact fun hc => Option.noConfusion hc)
        obtain ⟨q, hq⟩ := Option.isSome_iff_exists.mp hsome
        have hmem : (q, e) ∈ out.sorted_scores :=
          (mem_sorted_scores_of_gbc h).mpr ⟨hlt, hcon, hq⟩
        have hsplit : (q, e) ∈ pyDropLast out.sorted_scores n_best ++
            pySliceLast out.sorted_scores n_best := by
          rw [pySplit_eq]
          exact hmem
        rcases List.mem_append.mp hsplit with hdrop | hslice
        · have hne : out.sorted_scores ≠ [] := fun h0 =>
            List.not_mem_nil (q, e) (h0 ▸ hmem)
          refine Or.inr (Or.inl ?_)
          rw [(gbc_ok h).2.2.2.2, if_pos hne]
          refine List.mem_append.mpr (Or.inr ?_)
          rw [(List.perm_insertionSort ckptPathLe _).mem_iff]
          exact List.mem_map.mpr ⟨(q, e), hdrop, rfl⟩
        · refine Or.inl ?_
          rw [(gbc_ok h).2.1]
          exact List.mem_map.mpr ⟨(q, e), hslice, rfl⟩

theorem gbc_bound_partition_witness :
    get_best_checkpoints fsTwo "smatch" 3 [0, 1, 2] 1 = Except.ok outTwo
    ∧ 0 < 1
    ∧ (∀ p ∈ outTwo.sorted_scores, p.2 ∈ [0, 1, 2])
    ∧ (∀ e, e < 3 → (e ∈ [0, 1, 2] ∨ e ∈ fsTwo.ckpt) → fsTwo.res e ≠ none →
        (scoreOf fsTwo "smatch" e).isSome = true)
    ∧ (outTwo.best_n_checkpoints.length ≤ 1
       ∧ (∀ e ∈ outTwo.best_n_checkpoints, e ∉ outTwo.rest_checkpoints)
       ∧ ∀ e, (e ∈ outTwo.best_n_checkpoints ∨ e ∈ outTwo.rest_checkpoints ∨
            e ∈ outTwo.missing_epochs)
          ↔ (e < 3 ∧ (e ∈ [0, 1, 2] ∨ e ∈ fsTwo.ckpt))) :=
  ⟨by decide, by decide, by decide, by decide,
    @gbc_bound_partition fsTwo "smatch" 3 [0, 1, 2] 1 outTwo
      (by decide) (by decide) (by decide) (by decide)⟩

/-- C1 counterexample: first, with target [1] and a scored out-of-range epoch
0, checkpoint 0 is simultaneously in the best and the rest lists, so best and
rest are not disjoint; second, with an existing checkpoint whose results file
has no matching line, epoch 0 is a considered checkpoint that appears in none
of the best, rest and missing lists, so their union misses part of the
checkpoint set. -/
theorem gbc_bound_partition_counterexample :
    (get_best_checkpoints fsOverlap "smatch" 1 [1] 5 = Except.ok outOverlap
      ∧ 0 ∈ outOverlap.best_n_checkpoints
      ∧ 0 ∈ outOverlap.rest_checkpoints)
    ∧ (get_best_checkpoints fsUnparsed "smatch" 1 [0] 5 = Except.ok outEmpty
      ∧ 0 < 1 ∧ (0 : Nat) ∈ [0] ∧ 0 ∈ fsUnparsed.ckpt
      ∧ 0 ∉ outEmpty.best_n_checkpoints
      ∧ 0 ∉ outEmpty.rest_checkpoints
      ∧ 0 ∉ outEmpty.missing_epochs) := by
  decide

/-- C2 (amended): get_best_checkpoints collects one (score, epoch) pair for
every epoch BELOW MAX_EPOCH that reaches the results check (inside the target
range, or outside it with an existing checkpoint) and whose results file
exists and parses — an epoch equal to MAX_EPOCH is never collected even when
it is in the target range with a parsing results file, see the
counterexample — sorts the pairs ascending by score with ties kept in input
(epoch) order by the stable sort, returns the last n_best pairs as the best
set, and returns as deletable the complement of the best set within the
scored pairs together with the existing checkpoints outside the target
range. -/
theorem gbc_collect_sort_spec {fs : FS} {metric : String} {max_epoch : Nat}
    {target : List Nat} {n_best : Nat} {out : GbcOut}
    (h : get_best_checkpoints fs metric max_epoch target n_best = Except.ok out) :
    (∀ (q : ℚ) (e : Nat), ((q, e) ∈ out.sorted_scores ↔
        e < max_epoch ∧ (e ∈ target ∨ e ∈ fs.ckpt) ∧ scoreOf fs metric e = some q))
    ∧ out.sorted_scores.Pairwise scoreKeyLe
    ∧ (∀ q : ℚ, out.sorted_scores.filter (fun p => decide (p.1 = q)) =
        (collectedScores fs metric target max_epoch).filter (fun p => decide (p.1 = q)))
    ∧ out.best_n_checkpoints = (pySliceLast out.sorted_scores n_best).map Prod.snd
    ∧ (out.sorted_scores ≠ [] → ∀ e,
        (e ∈ out.rest_checkpoints ↔
          e ∈ (pyDropLast out.sorted_scores n_best).map Prod.snd
          ∨ (e < max_epoch ∧ e ∉ target ∧ e ∈ fs.ckpt))) := by
  refine ⟨fun q e => mem_sorted_scores_of_gbc h, ?_, ?_, (gbc_ok h).2.1, ?_⟩
  · rw [(gbc_ok h).1]
    exact List.sorted_insertionSort scoreKeyLe _
  · intro q
    rw [(gbc_ok h).1]
    exact insertionSort_filter_score q _
  · intro hne e
    rw [(gbc_ok h).2.2.2.2, if_pos hne]
    constructor
    · intro hmem
      rcases List.mem_append.mp hmem with hl | hr
      · exact Or.inr (mem_loopRest.mp hl)
      · refine Or.inl ?_
        rwa [(List.perm_insertionSort ckptPathLe _).mem_iff] at hr
    · rintro (hl | hr)
      · refine List.mem_append.mpr (Or.inr ?_)
        rwa [(List.perm_insertionSort ckptPathLe _).mem_iff]
      · exact List.mem_append.mpr (Or.inl (mem_loopRest.mpr hr))

theorem gbc_collect_sort_spec_witness :
    get_best_checkpoints fsTwo "smatch" 3 [0, 1, 2] 1 = Except.ok outTwo
    ∧ ((∀ (q : ℚ) (e : Nat), ((q, e) ∈ outTwo.sorted_scores ↔
          e < 3 ∧ (e ∈ [0, 1, 2] ∨ e ∈ fsTwo.ckpt) ∧ scoreOf fsTwo "smatch" e = some q))
       ∧ outTwo.sorted_scores.Pairwise scoreKeyLe
       ∧ (∀ q : ℚ, outTwo.sorted_scores.filter (fun p => decide (p.1 = q)) =
           (collectedScores fsTwo "smatch" [0, 1, 2] 3).filter (fun p => decide (p.1 = q)))
       ∧ outTwo.best_n_checkpoints = (pySliceLast outTwo.sorted_scores 1).map Prod.snd
       ∧ (outTwo.sorted_scores ≠ [] → ∀ e,
           (e ∈ outTwo.rest_checkpoints ↔
             e ∈ (pyDropLast outTwo.sorted_scores 1).map Prod.snd
             ∨ (e < 3 ∧ e ∉ [0, 1, 2] ∧ e ∈ fsTwo.ckpt)))) :=
  ⟨by decide, gbc_collect_sort_spec (by decide)⟩

/-- C2 counterexample: epoch 1 equals MAX_EPOCH, lies inside the target range
[0, 1] and has a results file that exists and parses to score 50, yet the
returned sorted score list is empty: the loop ranges only over epochs below
MAX_EPOCH, so no pair is collected for epoch 1. -/
theorem gbc_collect_counterexample :
    get_best_checkpoints fsLate "smatch" 1 [0, 1] 5 = Except.ok outLate
    ∧ (1 : Nat) ∈ [0, 1]
    ∧ fsLate.res 1 ≠ none
    ∧ scoreOf fsLate "smatch" 1 = some 50
    ∧ outLate.sorted_scores = [] := by
  decide

/-- C3 (amended): in remove mode exactly the existing checkpoint files of the
returned rest (deletable) list are deleted — every existing rest checkpoint
is removed, nothing outside the rest list is removed — and each deletion is
printed exactly when no list-checkpoints flag suppresses printing.  A
checkpoint of the best set is never removed provided every scored epoch lies
in the target range; without that proviso a best checkpoint can also sit in
the rest list and be deleted, see the counterexample. -/
theorem remove_mode_spec {fs : FS} {metric : String} {max_epoch : Nat}
    {target : List Nat} {n_best : Nat} {out : GbcOut} (suppress : Bool)
    (h : get_best_checkpoints fs metric max_epoch target n_best = Except.ok out)
    (H1 : ∀ p ∈ out.sorted_scores, p.2 ∈ target) :
    (∀ e, e ∈ out.rest_checkpoints → e ∈ fs.ckpt →
        e ∈ (removeGo suppress fs.ckpt out.rest_checkpoints).2)
    ∧ (∀ e, e ∈ (removeGo suppress fs.ckpt out.rest_checkpoints).2 →
        e ∈ out.rest_checkpoints ∧ e ∈ fs.ckpt)
    ∧ (∀ e ∈ out.best_n_checkpoints,
        e ∉ (removeGo suppress fs.ckpt out.rest_checkpoints).2)
    ∧ (suppress = false →
        (removeGo suppress fs.ckpt out.rest_checkpoints).1 =
          (removeGo suppress fs.ckpt out.rest_checkpoints).2)
    ∧ (suppress = true →
        (removeGo suppress fs.ckpt out.rest_checkpoints).1 = []) := by
  refine ⟨fun e h1 h2 => removeGo_removed_of_mem h1 h2,
    fun e hr => removeGo_removed_subset hr, ?_, ?_, ?_⟩
  · intro e hbest hrem
    exact gbc_best_rest_disjoint h H1 e hbest (removeGo_removed_subset hrem).1
  · intro hs
    subst hs
    exact removeGo_printed_eq _ _
  · intro hs
    subst hs
    exact removeGo_printed_suppressed _ _

theorem remove_mode_spec_witness :
    get_best_checkpoints fsTwo "smatch" 3 [0, 1, 2] 1 = Except.ok outTwo
    ∧ (∀ p ∈ outTwo.sorted_scores, p.2 ∈ [0, 1, 2])
    ∧ ((∀ e, e ∈ outTwo.rest_checkpoints → e ∈ fsTwo.ckpt →
          e ∈ (removeGo false fsTwo.ckpt outTwo.rest_checkpoints).2)
       ∧ (∀ e, e ∈ (removeGo false fsTwo.ckpt outTwo.rest_checkpoints).2 →
          e ∈ outTwo.rest_checkpoints ∧ e ∈ fsTwo.ckpt)
       ∧ (∀ e ∈ outTwo.best_n_checkpoints,
          e ∉ (removeGo false fsTwo.ckpt outTwo.rest_checkpoints).2)
       ∧ (false = false →
          (removeGo false fsTwo.ckpt outTwo.rest_checkpoints).1 =
            (removeGo false fsTwo.ckpt outTwo.rest_checkpoints).2)
       ∧ (false = true →
          (removeGo false fsTwo.ckpt outTwo.rest_checkpoints).1 = [])) :=
  ⟨by decide, by decide,
    @remove_mode_spec fsTwo "smatch" 3 [0, 1, 2] 1 outTwo false
      (by decide) (by decide)⟩

/-- C3 counterexample: epoch 0 is in the returned best set, yet remove mode
deletes its checkpoint file, because epoch 0 lies outside the target range so
its existing checkpoint also entered the deletable rest list. -/
theorem remove_mode_counterexample :
    get_best_checkpoints fsOverlap "smatch" 1 [1] 5 = Except.ok outOverlap
    ∧ 0 ∈ outOverlap.best_n_checkpoints
    ∧ 0 ∈ (removeGo false fsOverlap.ckpt outOverlap.rest_checkpoints).2 := by
  decide

theorem gbc_no_scores_keeps_newest_witness :
    get_best_checkpoints fsNoScores "smatch" 2 [5] 5 = Except.ok outNoScores
    ∧ outNoScores.sorted_scores = []
    ∧ (1 : Nat) ∈ fsNoScores.ckpt
    ∧ (∀ e' ∈ fsNoScores.ckpt, e' ≤ 1)
    ∧ (1 ∉ outNoScores.rest_checkpoints
       ∧ ∀ suppress : Bool,
          1 ∉ (removeGo suppress fsNoScores.ckpt outNoScores.rest_checkpoints).2) :=
  ⟨by decide, by decide, by decide, by decide,
    @gbc_no_scores_keeps_newest fsNoScores "smatch" 2 [5] 5 outNoScores
      (by decide) (by decide) 1 (by decide) (by decide)⟩

theorem gbc_final_epoch_untouched_witness :
    get_best_checkpoints fsTwo "smatch" 3 [0, 1, 2] 1 = Except.ok outTwo
    ∧ (3 ∉ outTwo.best_n_checkpoints
       ∧ 3 ∉ outTwo.rest_checkpoints
       ∧ 3 ∉ outTwo.missing_epochs
       ∧ ∀ suppress : Bool,
          3 ∉ (removeGo suppress fsTwo.ckpt outTwo.rest_checkpoints).2) :=
  ⟨by decide,
    @gbc_final_epoch_untouched fsTwo "smatch" 3 [0, 1, 2] 1 outTwo (by decide)⟩

/-- C7 (amended): link_best_model is idempotent on the resulting link state —
re-running it on the same best-checkpoint list with an unchanged filesystem
leaves every rank name pointing at the same best checkpoint — but it is not a
no-op at the action level: because os.path.isfile follows symbolic links, a
second run removes each correct link that resolves to an existing checkpoint
and creates it again (see the counterexample); only a link whose target file
is absent is left untouched. -/
theorem link_best_model_state_idempotent (ckptE : Nat → Bool)
    (best_n_checkpoints : List Nat) (nbest : Nat) (links : Int → LinkState)
    (k : Int) :
    (link_best_model ckptE best_n_checkpoints nbest
        (link_best_model ckptE best_n_checkpoints nbest links).1).1 k
      = (link_best_model ckptE best_n_checkpoints nbest links).1 k := by
  unfold link_best_model
  simp only [lbmGo_fst]
  refine applyPairs_congr _ _ _ k ?_
  intro k'
  by_cases hw : ∀ p ∈ best_n_checkpoints.enum, rankKey nbest p.1 ≠ k'
  · exact Or.inl (applyPairs_unwritten hw)
  · push_neg at hw
    obtain ⟨p, hp, hpk⟩ := hw
    exact Or.inr ⟨p, hp, hpk⟩

/-- C7 counterexample: a first run creates the rank-1 link to the best
checkpoint, whose file exists; a second run on the unchanged filesystem and
the same best list is not free of link removals and creations: because
os.path.isfile follows symbolic links, the second run removes the correct
link and creates it again. -/
theorem link_best_model_counterexample :
    (link_best_model ckptAll [0] 1 linksAbsent).2 =
      [((1 : Int), LinkAct.symlinkAct 0)]
    ∧ (link_best_model ckptAll [0] 1 linksAbsent).1 1 = LinkState.linkTo 0
    ∧ (link_best_model ckptAll [0] 1
        (link_best_model ckptAll [0] 1 linksAbsent).1).2 =
      [((1 : Int), LinkAct.removeAct), ((1 : Int), LinkAct.symlinkAct 0)] := by
  decide
